import Mathlib

/-!
Verification of the RXH reverse proxy (antoniosarosi/rxh) against its
natural-language specification.  Each Rust function relevant to the claims is
shallowly embedded as an executable Lean definition; machine integers are
modelled as `Nat` with explicit reduction modulo `2 ^ 64` where the source
relies on wrapping arithmetic.  Fallible or panicking code is modelled with
`Option` / `Except`.
-/

set_option maxHeartbeats 1000000
set_option linter.dupNamespace false

namespace Rxh

/-- Modulus of Rust's `usize` on the 64-bit targets the program is built for:
`usize::MAX + 1 = 2 ^ 64 = 18446744073709551616`.  `AtomicUsize::fetch_add`
wraps around modulo this value. -/
def USIZE : Nat := 18446744073709551616

theorem USIZE_eq_two_pow : USIZE = 2 ^ 64 := by norm_num [USIZE]

/-- Socket addresses (`std::net::SocketAddr`) are only compared, stored and
printed by the code under verification, so they are modelled by their textual
form, e.g. "127.0.0.1:8080". -/
abbrev SocketAddr := String

/-- Embeds `struct Backend` from `src/config/mod.rs`: an upstream server
`(address, weight)`. -/
structure Backend where
  address : SocketAddr
  weight : Nat
deriving DecidableEq, Repr

/-- Embeds `struct Ring<T>` from `src/sync/ring.rs`: the pre-computed cycle
`values` plus the atomic counter `next` (an `AtomicUsize`, hence a natural
number below `USIZE`). -/
structure Ring (α : Type) where
  values : List α
  next : Nat
deriving DecidableEq, Repr

/-- Embeds `Ring::new` (`src/sync/ring.rs` lines 28-33): counter starts at 0. -/
def Ring.new (values : List α) : Ring α :=
  { values := values, next := 0 }

/-- Embeds `Ring::next_index` (`src/sync/ring.rs` lines 39-45): if the ring
holds exactly one value the index is 0 and the atomic is skipped; otherwise the
old counter value modulo the length is used.  The counter update performed by
`fetch_add` is modelled separately by `Ring.advance`. -/
def Ring.next_index (r : Ring α) : Nat :=
  if r.values.length = 1 then 0 else r.next % r.values.length

/-- Counter update half of `fetch_add(1, Ordering::Relaxed)` in
`Ring::next_index`: the `AtomicUsize` wraps modulo `USIZE`.  In the
single-value branch the source never touches the atomic. -/
def Ring.advance (r : Ring α) : Ring α :=
  if r.values.length = 1 then r else { r with next := (r.next + 1) % USIZE }

/-- Embeds `Ring::next_as_owned` (`src/sync/ring.rs` lines 57-59), which reads
`self.values[self.next_index()]`.  On an empty ring the source panics (`%` by
zero inside `next_index`, or an out-of-bounds index), modelled as `none`. -/
def Ring.next_as_owned (r : Ring α) : Option (α × Ring α) :=
  match r.values.get? r.next_index with
  | some v => some (v, r.advance)
  | none => none

/-- Runs `k` consecutive `Ring::next_as_owned` calls, collecting the returned
values in order together with the final ring state.  This is the formal
meaning of "a window of `k` consecutive calls". -/
def Ring.run (r : Ring α) : Nat → Option (List α × Ring α)
  | 0 => some ([], r)
  | k + 1 =>
    match r.next_as_owned with
    | none => none
    | some (v, r2) =>
      match r2.run k with
      | none => none
      | some (w, r3) => some (v :: w, r3)

/-- State of the ring after `k` calls (counter side only). -/
def Ring.advanceN (r : Ring α) : Nat → Ring α
  | 0 => r
  | k + 1 => (r.advanceN k).advance

/-- Embeds the cycle construction loop of `WeightedRoundRobin::new`
(`src/sched/wrr.rs` lines 27-42): each backend's address is pushed `weight`
times, in declaration order. -/
def wrrCycle (backends : List Backend) : List SocketAddr :=
  backends.flatMap fun b => List.replicate b.weight b.address

/-- Embeds `struct WeightedRoundRobin` (`src/sched/wrr.rs`). -/
structure WeightedRoundRobin where
  cycle : Ring SocketAddr
deriving DecidableEq, Repr

/-- Embeds `WeightedRoundRobin::new` (`src/sched/wrr.rs` lines 27-42). -/
def WeightedRoundRobin.new (backends : List Backend) : WeightedRoundRobin :=
  { cycle := Ring.new (wrrCycle backends) }

/-- Embeds `WeightedRoundRobin::next_server` (`src/sched/wrr.rs` lines 46-48):
`self.cycle.next_as_owned()`.  `none` models the panic on an empty cycle. -/
def WeightedRoundRobin.next_server (s : WeightedRoundRobin) :
    Option (SocketAddr × WeightedRoundRobin) :=
  s.cycle.next_as_owned.map fun p => (p.1, { cycle := p.2 })

/-- Window of values produced by a run of the ring starting at counter `c`:
call `i` yields `values[(c + i) % length]`. -/
def cyclicWindow [Inhabited α] (vals : List α) (c k : Nat) : List α :=
  (List.range k).map fun i => vals.getD ((c + i) % vals.length) default

/-- Embeds the dispatch loop of the scheduler as seen by the service layer
(`src/service/mod.rs` line 84 calls `scheduler.next_server()` once per
request): `k` consecutive `next_server` calls. -/
def WeightedRoundRobin.run (s : WeightedRoundRobin) :
    Nat → Option (List SocketAddr × WeightedRoundRobin)
  | 0 => some ([], s)
  | k + 1 =>
    match s.next_server with
    | none => none
    | some (a, s2) =>
      match s2.run k with
      | none => none
      | some (w, s3) => some (a :: w, s3)

theorem Ring.next_index_eq (vals : List α) (c : Nat) :
    (Ring.mk vals c).next_index = c % vals.length := by
  unfold Ring.next_index
  split
  · rename_i h1
    show 0 = c % (Ring.mk vals c).values.length
    rw [h1, Nat.mod_one]
  · rfl

theorem cyclicWindow_succ [Inhabited α] (vals : List α) (c k : Nat) :
    cyclicWindow vals c (k + 1) =
      vals.getD (c % vals.length) default :: cyclicWindow vals (c + 1) k := by
  unfold cyclicWindow
  rw [List.range_succ_eq_map, List.map_cons, List.map_map]
  congr 1
  refine List.map_congr_left fun i _ => ?_
  simp only [Function.comp_apply]
  rw [show c + Nat.succ i = c + 1 + i from by omega]

theorem cyclicWindow_congr_of_length_one [Inhabited α] (vals : List α)
    (h : vals.length = 1) (c c2 k : Nat) :
    cyclicWindow vals c k = cyclicWindow vals c2 k := by
  unfold cyclicWindow
  refine List.map_congr_left fun i _ => ?_
  rw [h, Nat.mod_one, Nat.mod_one]

/-- Specification of a window of consecutive `next_as_owned` calls: starting
from counter `c`, as long as the counter does not wrap around (`c + k ≤
USIZE`), call `i` returns `values[(c + i) % length]`. -/
theorem Ring.run_eq_cyclicWindow [Inhabited α] (vals : List α) (k : Nat) :
    ∀ c : Nat, vals ≠ [] → c + k ≤ USIZE →
      ∃ r2 : Ring α, (Ring.mk vals c).run k = some (cyclicWindow vals c k, r2) := by
  induction k with
  | zero =>
    intro c _ _
    exact ⟨Ring.mk vals c, by simp [Ring.run, cyclicWindow]⟩
  | succ k ih =>
    intro c hne hw
    have hlen : 0 < vals.length := List.length_pos.mpr hne
    have hidx : (Ring.mk vals c).next_index < vals.length := by
      rw [Ring.next_index_eq]
      exact Nat.mod_lt _ hlen
    have hget : vals.get? ((Ring.mk vals c).next_index) =
        some (vals.getD ((Ring.mk vals c).next_index) default) := by
      rw [List.get?_eq_getElem?, List.getElem?_eq_getElem hidx,
        List.getD_eq_getElem vals default hidx]
    have hstep : (Ring.mk vals c).next_as_owned =
        some (vals.getD ((Ring.mk vals c).next_index) default, (Ring.mk vals c).advance) := by
      simp only [Ring.next_as_owned, hget]
    by_cases h1 : vals.length = 1
    · have hadv : (Ring.mk vals c).advance = Ring.mk vals c := by
        unfold Ring.advance
        rw [if_pos (show (Ring.mk vals c).values.length = 1 from h1)]
      obtain ⟨r2, hrun⟩ := ih c hne (by omega)
      refine ⟨r2, ?_⟩
      simp only [Ring.run, hstep, hadv, hrun]
      rw [cyclicWindow_succ, Ring.next_index_eq,
        cyclicWindow_congr_of_length_one vals h1 (c + 1) c k]
    · have hadv : (Ring.mk vals c).advance = Ring.mk vals ((c + 1) % USIZE) := by
        unfold Ring.advance
        rw [if_neg (show ¬ (Ring.mk vals c).values.length = 1 from h1)]
      by_cases h2 : c + 1 < USIZE
      · have hmod : (c + 1) % USIZE = c + 1 := Nat.mod_eq_of_lt h2
        obtain ⟨r2, hrun⟩ := ih (c + 1) hne (by omega)
        refine ⟨r2, ?_⟩
        simp only [Ring.run, hstep, hadv, hmod, hrun]
        rw [cyclicWindow_succ, Ring.next_index_eq]
      · have hk : k = 0 := by omega
        subst hk
        refine ⟨(Ring.mk vals c).advance, ?_⟩
        simp only [Ring.run, hstep]
        rw [cyclicWindow_succ, Ring.next_index_eq]
        simp [cyclicWindow]

/-- A full-cycle window starting at any counter value is a rotation of the
cycle, hence has the same element counts. -/
theorem cyclicWindow_count_full [Inhabited α] [DecidableEq α] (vals : List α)
    (c : Nat) (hne : vals ≠ []) (a : α) :
    (cyclicWindow vals c vals.length).count a = vals.count a := by
  have hlen : 0 < vals.length := List.length_pos.mpr hne
  have hrot : cyclicWindow vals c vals.length = vals.rotate c := by
    apply List.ext_getElem
    · simp [cyclicWindow]
    · intro i h1 h2
      simp only [cyclicWindow, List.getElem_map, List.getElem_range, List.getElem_rotate]
      rw [List.getD_eq_getElem vals default (Nat.mod_lt _ hlen)]
      congr 1
      rw [Nat.add_comm]
  rw [hrot]
  exact (List.rotate_perm vals c).count_eq a

theorem count_wrrCycle_of_not_mem (bs : List Backend) (a : SocketAddr)
    (h : ∀ b ∈ bs, b.address ≠ a) : (wrrCycle bs).count a = 0 := by
  induction bs with
  | nil => rfl
  | cons b bs ih =>
    have hb : b.address ≠ a := h b (List.mem_cons_self b bs)
    have hrest : ∀ x ∈ bs, x.address ≠ a := fun x hx => h x (List.mem_cons_of_mem b hx)
    simp only [wrrCycle, List.flatMap_cons, List.count_append, List.count_replicate]
    simp only [wrrCycle] at ih
    rw [ih hrest]
    simp [hb]

/-- With pairwise distinct backend addresses, backend `j`'s address occurs in
the pre-computed cycle exactly `weight j` times. -/
theorem count_wrrCycle_get (bs : List Backend) (j : Nat) (hj : j < bs.length)
    (hnodup : (bs.map Backend.address).Nodup) :
    (wrrCycle bs).count (bs[j].address) = bs[j].weight := by
  induction bs generalizing j with
  | nil => simp at hj
  | cons b bs ih =>
    rw [List.map_cons, List.nodup_cons] at hnodup
    obtain ⟨hnotmem, hnd⟩ := hnodup
    cases j with
    | zero =>
      simp only [List.getElem_cons_zero]
      have hrest : ∀ x ∈ bs, x.address ≠ b.address := by
        intro x hx heq
        exact hnotmem (heq ▸ List.mem_map_of_mem Backend.address hx)
      have h0 := count_wrrCycle_of_not_mem bs b.address hrest
      simp only [wrrCycle, List.flatMap_cons, List.count_append, List.count_replicate]
      simp only [wrrCycle] at h0
      rw [h0]
      simp
    | succ j =>
      have hj2 : j < bs.length := by simpa using hj
      simp only [List.getElem_cons_succ]
      have hmem : bs[j] ∈ bs := List.getElem_mem hj2
      have hne2 : b.address ≠ bs[j].address := by
        intro heq
        exact hnotmem (heq ▸ List.mem_map_of_mem Backend.address hmem)
      have hrec := ih j hj2 hnd
      simp only [wrrCycle, List.flatMap_cons, List.count_append, List.count_replicate]
      simp only [wrrCycle] at hrec
      rw [hrec]
      simp [hne2]

theorem WeightedRoundRobin.run_eq_ring_run (r : Ring SocketAddr) (k : Nat) :
    (WeightedRoundRobin.mk r).run k =
      (r.run k).map fun p => (p.1, WeightedRoundRobin.mk p.2) := by
  induction k generalizing r with
  | zero => rfl
  | succ k ih =>
    cases h : r.next_as_owned with
    | none =>
      simp [WeightedRoundRobin.run, Ring.run, WeightedRoundRobin.next_server, h]
    | some p =>
      obtain ⟨v, r2⟩ := p
      have ih2 := ih r2
      cases h2 : r2.run k with
      | none =>
        simp [WeightedRoundRobin.run, Ring.run, WeightedRoundRobin.next_server, h, h2, ih2]
      | some q =>
        simp [WeightedRoundRobin.run, Ring.run, WeightedRoundRobin.next_server, h, h2, ih2]

theorem Ring.advanceN_mk (vals : List α) (h1 : vals.length ≠ 1) (c : Nat)
    (hc : c < USIZE) (m : Nat) :
    (Ring.mk vals c).advanceN m = Ring.mk vals ((c + m) % USIZE) := by
  induction m with
  | zero =>
    simp [Ring.advanceN, Nat.mod_eq_of_lt hc]
  | succ m ih =>
    rw [Ring.advanceN, ih]
    unfold Ring.advance
    rw [if_neg (show ¬ (Ring.mk vals ((c + m) % USIZE)).values.length = 1 from h1)]
    rw [show ((Ring.mk vals ((c + m) % USIZE)).next + 1) % USIZE = (c + (m + 1)) % USIZE from by
      show ((c + m) % USIZE + 1) % USIZE = _
      rw [Nat.mod_add_mod, Nat.add_assoc]]

/-- C1, counterexample.  Take three backends `a`, `b`, `c` each of weight 1
(`Σw = 3`).  The window of 3 consecutive `next_server` calls that starts after
`2 ^ 64 - 1` earlier calls — i.e. at the point where the relaxed `fetch_add`
counter wraps around — returns `["a", "a", "b"]`: backend `a` (weight 1) is
returned twice and backend `c` not at all, so it is not the case that every
window of `Σw` consecutive calls returns each backend exactly `weight` times. -/
theorem wrr_window_wraparound_cex :
    ∃ w s2,
      (WeightedRoundRobin.mk
          ((WeightedRoundRobin.new
              [⟨"a", 1⟩, ⟨"b", 1⟩, ⟨"c", 1⟩]).cycle.advanceN (USIZE - 1))).run 3 =
        some (w, s2) ∧
      w.count "a" = 2 ∧ (Backend.mk "a" 1).weight = 1 := by
  have h2 : (WeightedRoundRobin.new
      [⟨"a", 1⟩, ⟨"b", 1⟩, ⟨"c", 1⟩]).cycle.advanceN (USIZE - 1) =
      Ring.mk ["a", "b", "c"] ((0 + (USIZE - 1)) % USIZE) := by
    rw [show (WeightedRoundRobin.new [⟨"a", 1⟩, ⟨"b", 1⟩, ⟨"c", 1⟩]).cycle =
      Ring.mk ["a", "b", "c"] 0 from rfl]
    exact Ring.advanceN_mk _ (by decide) 0 (by decide) _
  refine ⟨["a", "a", "b"], WeightedRoundRobin.mk (Ring.mk ["a", "b", "c"] 2), ?_, by decide,
    by decide⟩
  rw [h2, show (0 + (USIZE - 1)) % USIZE = USIZE - 1 from by
    rw [Nat.zero_add]
    exact Nat.mod_eq_of_lt (by decide)]
  rw [WeightedRoundRobin.run_eq_ring_run]
  decide

/-- C1, amended.  For a WRR scheduler over backends with pairwise distinct
addresses and a non-empty cycle, any window of `Σw = |cycle|` consecutive
`next_server` calls that does not span a wraparound of the 64-bit counter
(window start `c` with `c + Σw ≤ 2 ^ 64`) returns each backend's address
exactly its weight many times.  The counter state `c` is the scheduler state
after `c` earlier calls (`Ring.advanceN_mk`). -/
theorem wrr_window_each_backend_weight (backends : List Backend) (c j : Nat)
    (hj : j < backends.length)
    (hnodup : (backends.map Backend.address).Nodup)
    (hne : wrrCycle backends ≠ [])
    (hwrap : c + (wrrCycle backends).length ≤ USIZE) :
    ∃ w s2,
      (WeightedRoundRobin.mk (Ring.mk (wrrCycle backends) c)).run
          (wrrCycle backends).length = some (w, s2) ∧
      w.count (backends[j].address) = backends[j].weight := by
  obtain ⟨r2, hrun⟩ :=
    Ring.run_eq_cyclicWindow (wrrCycle backends) (wrrCycle backends).length c hne hwrap
  refine ⟨cyclicWindow (wrrCycle backends) c (wrrCycle backends).length,
    WeightedRoundRobin.mk r2, ?_, ?_⟩
  · rw [WeightedRoundRobin.run_eq_ring_run, hrun]
    rfl
  · rw [cyclicWindow_count_full _ _ hne, count_wrrCycle_get backends j hj hnodup]

/-- Sample WRR configuration from the repository's own unit test
(`src/sched/wrr.rs` lines 57-61): weights 1, 3, 2. -/
def sampleBackends : List Backend :=
  [⟨"127.0.0.1:8080", 1⟩, ⟨"127.0.0.1:8081", 3⟩, ⟨"127.0.0.1:8082", 2⟩]

/-- Witness for `wrr_window_each_backend_weight`: the window of 6 calls
starting after 4 earlier calls returns backend 2's address exactly twice. -/
theorem wrr_window_each_backend_weight_witness :
    (2 < sampleBackends.length ∧ (sampleBackends.map Backend.address).Nodup ∧
      wrrCycle sampleBackends ≠ [] ∧ 4 + (wrrCycle sampleBackends).length ≤ USIZE) ∧
    ∃ w s2,
      (WeightedRoundRobin.mk (Ring.mk (wrrCycle sampleBackends) 4)).run
          (wrrCycle sampleBackends).length = some (w, s2) ∧
      w.count (sampleBackends[2].address) = sampleBackends[2].weight :=
  ⟨⟨by decide, by decide, by decide, by decide⟩,
    wrr_window_each_backend_weight sampleBackends 4 2 (by decide) (by decide) (by decide)
      (by decide)⟩

/-- Embeds `enum Algorithm` from `src/config/mod.rs`; the only variant is
`Wrr`. -/
inductive Algorithm where
  | Wrr
deriving DecidableEq, Repr

/-- Embeds `enum BackendOption` from `src/config/deser.rs` lines 77-82: an
upstream server is written either as a bare socket address or as an
`{address, weight}` object.  The `weight` field is a `usize`; the
deserializer accepts any value, including 0. -/
inductive BackendOption where
  | Simple (address : SocketAddr)
  | Weighted (address : SocketAddr) (weight : Nat)
deriving DecidableEq, Repr

/-- Embeds `impl From<BackendOption> for Backend` (`src/config/deser.rs` lines
84-93): the `Simple` form gets weight 1, the `Weighted` form keeps the weight
written in the config file. -/
def Backend.fromOption : BackendOption → Backend
  | .Simple address => ⟨address, 1⟩
  | .Weighted address weight => ⟨address, weight⟩

/-- Embeds `struct Forward` (`src/config/mod.rs`): backends, algorithm, and
the scheduler built from them. -/
structure Forward where
  backends : List Backend
  algorithm : Algorithm
  scheduler : WeightedRoundRobin
deriving DecidableEq, Repr

/-- Embeds `sched::make` (`src/sched/mod.rs` lines 25-29): the factory builds
a `WeightedRoundRobin` for the `Wrr` algorithm. -/
def sched.make (algorithm : Algorithm) (backends : List Backend) : WeightedRoundRobin :=
  match algorithm with
  | .Wrr => WeightedRoundRobin.new backends

/-- Embeds `enum ForwardOption` (`src/config/deser.rs` lines 137-146). -/
inductive ForwardOption where
  | Simple (backends : List Backend)
  | WithAlgorithm (algorithm : Algorithm) (backends : List Backend)
deriving DecidableEq, Repr

/-- Embeds `impl From<ForwardOption> for Forward` (`src/config/deser.rs` lines
148-167): the `Simple` form defaults the algorithm to WRR, and the scheduler
is built with `sched::make` from the parsed backends. -/
def Forward.fromOption : ForwardOption → Forward
  | .Simple backends => ⟨backends, .Wrr, sched.make .Wrr backends⟩
  | .WithAlgorithm algorithm backends => ⟨backends, algorithm, sched.make algorithm backends⟩

/-- Embeds `enum Action` (`src/config/mod.rs`). -/
inductive Action where
  | Forward (f : Forward)
  | Serve (root : String)
deriving DecidableEq, Repr

/-- Embeds `struct Pattern` (`src/config/mod.rs`): a URI prefix and the action
to run when it matches. -/
structure Pattern where
  uri : String
  action : Action
deriving DecidableEq, Repr

theorem Ring.next_as_owned_isSome (r : Ring α) (h : r.values ≠ []) :
    ∃ v r2, r.next_as_owned = some (v, r2) := by
  have hlen : 0 < r.values.length := List.length_pos.mpr h
  have hidx : r.next_index < r.values.length := by
    unfold Ring.next_index
    split
    · omega
    · exact Nat.mod_lt _ hlen
  refine ⟨r.values.get ⟨r.next_index, hidx⟩, r.advance, ?_⟩
  simp only [Ring.next_as_owned]
  rw [List.get?_eq_getElem?, List.getElem?_eq_getElem hidx]
  rfl

theorem Forward.scheduler_cycle_values (opt : ForwardOption) :
    (Forward.fromOption opt).scheduler.cycle.values =
      wrrCycle (Forward.fromOption opt).backends := by
  cases opt with
  | Simple backends => rfl
  | WithAlgorithm algorithm backends => cases algorithm; rfl

/-- C8, counterexample.  The parsed configuration
`forward = [{address = "127.0.0.1:9000", weight = 0}]` (the `Weighted` form of
`BackendOption` with weight 0) yields a `Forward` action whose single backend
has weight 0 < 1 and whose WRR cycle vector is empty, so `next_server` selects
from an empty cycle (a panic, modelled as `none`). -/
theorem forward_weight_zero_cex :
    (∃ b ∈ (Forward.fromOption
        (.Simple [Backend.fromOption (.Weighted "127.0.0.1:9000" 0)])).backends,
      b.weight < 1) ∧
    (Forward.fromOption
        (.Simple [Backend.fromOption (.Weighted "127.0.0.1:9000" 0)])).scheduler.cycle.values
      = [] ∧
    (Forward.fromOption
        (.Simple [Backend.fromOption (.Weighted "127.0.0.1:9000" 0)])).scheduler.next_server
      = none := by
  decide

/-- C8, amended.  A backend parsed from the `Simple` config form always has
weight 1, but parsing does not enforce `weight ≥ 1` in general (see
`forward_weight_zero_cex`).  For every `Forward` action all of whose parsed
backends have weight ≥ 1 and whose backend list is non-empty, the WRR cycle
vector is non-empty and `next_server` never selects from an empty cycle. -/
theorem forward_cycle_nonempty_of_weights :
    (∀ a : SocketAddr, (Backend.fromOption (.Simple a)).weight = 1) ∧
    ∀ opt : ForwardOption,
      (∀ b ∈ (Forward.fromOption opt).backends, 1 ≤ b.weight) →
      (Forward.fromOption opt).backends ≠ [] →
      (Forward.fromOption opt).scheduler.cycle.values ≠ [] ∧
      ∃ a s2, (Forward.fromOption opt).scheduler.next_server = some (a, s2) := by
  refine ⟨fun _ => rfl, fun opt hw hne => ?_⟩
  have hvals := Forward.scheduler_cycle_values opt
  obtain ⟨b, hb⟩ := List.exists_mem_of_ne_nil _ hne
  have hmem : b.address ∈ wrrCycle (Forward.fromOption opt).backends := by
    refine List.mem_flatMap.mpr ⟨b, hb, ?_⟩
    refine List.mem_replicate.mpr ⟨?_, rfl⟩
    have := hw b hb
    omega
  have hcyc : (Forward.fromOption opt).scheduler.cycle.values ≠ [] := by
    rw [hvals]
    exact List.ne_nil_of_mem hmem
  refine ⟨hcyc, ?_⟩
  obtain ⟨v, r2, hsome⟩ := Ring.next_as_owned_isSome _ hcyc
  refine ⟨v, ⟨r2⟩, ?_⟩
  rw [WeightedRoundRobin.next_server, hsome]
  rfl

/-- Witness for `forward_cycle_nonempty_of_weights` at the single-backend
configuration `forward = "127.0.0.1:8080"`. -/
theorem forward_cycle_nonempty_of_weights_witness :
    ((∀ b ∈ (Forward.fromOption
          (.Simple [Backend.fromOption (.Simple "127.0.0.1:8080")])).backends,
        1 ≤ b.weight) ∧
      (Forward.fromOption
          (.Simple [Backend.fromOption (.Simple "127.0.0.1:8080")])).backends ≠ []) ∧
    ((Forward.fromOption
        (.Simple [Backend.fromOption (.Simple "127.0.0.1:8080")])).scheduler.cycle.values
      ≠ [] ∧
    ∃ a s2, (Forward.fromOption
        (.Simple [Backend.fromOption (.Simple "127.0.0.1:8080")])).scheduler.next_server
      = some (a, s2)) :=
  ⟨⟨by decide, by decide⟩,
    forward_cycle_nonempty_of_weights.2 _ (by decide) (by decide)⟩

/-- Embeds `http::Uri` as used by the service layer: a request URI in origin
form (path and optional query) or absolute form (a scheme-and-authority
prefix is present, as in `http://example.com/x`).  `Uri::to_string()` renders
the whole URI; `path_and_query` omits the scheme/authority prefix. -/
structure Uri where
  scheme_and_authority : Option String
  path : String
  query : Option String
deriving DecidableEq, Repr

/-- Models Rust's `str::starts_with` (and the `String::starts_with` call in
`Rxh::call`).  Lean's built-in `String.startsWith` works on byte positions and
does not reduce in the kernel, so the character-list form is used instead. -/
def strStartsWith (s pre : String) : Bool :=
  pre.data.isPrefixOf s.data

/-- Models the byte-slice `&s[n..]` on strings (used as `&path[1..]` in
`Rxh::call` where the stripped character `/` is one byte). -/
def strDrop (s : String) (n : Nat) : String :=
  String.mk (s.data.drop n)

/-- Rendering of `request.uri().path_and_query()`. -/
def Uri.path_and_query (u : Uri) : String :=
  u.path ++ (match u.query with | some q => "?" ++ q | none => "")

/-- Rendering of `request.uri().to_string()` (`src/service/mod.rs` line 68). -/
def Uri.render (u : Uri) : String :=
  (match u.scheme_and_authority with | some sa => sa | none => "") ++ u.path_and_query

/-- HTTP response as observed by the claims: status code, optional
`Content-Type` header, body bytes. -/
structure Response where
  status : Nat
  content_type : Option String
  body : List Nat
deriving DecidableEq, Repr

/-- Modelled from the spec: `LocalResponse::not_found()` is defined in
`src/http/response.rs`, which is declared in `src/http/mod.rs` but missing
from the source tree.  Spec section 4.3: "No match ⇒ respond `404 Not Found`
with an empty body." -/
def LocalResponse.not_found : Response :=
  { status := 404, content_type := none, body := [] }

/-- Modelled from the spec: `LocalResponse::bad_gateway()` is defined in the
missing `src/http/response.rs`.  Spec section 4.4: dial failures and upgrade
mismatches "respond `502 Bad Gateway`". -/
def LocalResponse.bad_gateway : Response :=
  { status := 502, content_type := none, body := [] }

/-- Result of the dispatch in `Rxh::call` (`src/service/mod.rs` lines 67-95):
either the chosen action about to be executed, or a locally produced
response. -/
inductive CallOutcome where
  | forwardTo (f : Forward)
  | serveFile (path : String) (root : String)
  | response (r : Response)
deriving DecidableEq, Repr

/-- Embeds the `match &pattern.action` block of `Rxh::call`
(`src/service/mod.rs` lines 80-95): a `Forward` action is executed with its
scheduler, a `Serve` action strips one leading `/` from `request.uri().path()`
and transfers the file relative to the configured directory. -/
def Rxh.applyAction (p : Pattern) (u : Uri) : CallOutcome :=
  match p.action with
  | .Forward f => .forwardTo f
  | .Serve directory =>
    .serveFile (if strStartsWith u.path "/" then strDrop u.path 1 else u.path) directory

/-- Embeds the pattern dispatch of `Rxh::call` (`src/service/mod.rs` lines
67-79): the request URI is stringified with `to_string()`, the pattern list is
scanned in declaration order with `uri.starts_with(pattern.uri)`, and when no
pattern matches `LocalResponse::not_found()` is returned. -/
def Rxh.call (patterns : List Pattern) (u : Uri) : CallOutcome :=
  match patterns.find? (fun p => strStartsWith (Uri.render u) p.uri) with
  | none => .response LocalResponse.not_found
  | some p => Rxh.applyAction p u

theorem find?_first (p : α → Bool) (l : List α) (j : Nat) (hj : j < l.length)
    (hp : p (l.get ⟨j, hj⟩) = true)
    (hfirst : ∀ i (hi : i < l.length), i < j → p (l.get ⟨i, hi⟩) = false) :
    l.find? p = some (l.get ⟨j, hj⟩) := by
  induction l generalizing j with
  | nil => simp at hj
  | cons a l ih =>
    cases j with
    | zero =>
      exact List.find?_cons_of_pos _ hp
    | succ j =>
      have ha : p a = false := hfirst 0 (by omega) (by omega)
      rw [List.find?_cons_of_neg _ (by simp [ha])]
      have hj2 : j < l.length := by simpa using hj
      refine ih j hj2 hp ?_
      intro i hi hij
      exact hfirst (i + 1) (by omega) (by omega)

/-- C4, counterexample.  For the absolute-form request URI
`http://example.com/x` and the single pattern `/x`, the pattern's URI prefix
is a string prefix of the stringified path-and-query (`"/x"`), yet the
service responds `404 Not Found` instead of executing the pattern's action:
the code matches against `request.uri().to_string()`, which includes the
scheme and authority, not against `path_and_query()`. -/
theorem call_path_and_query_cex :
    Rxh.call [⟨"/x", .Serve "/srv"⟩] ⟨some "http://example.com", "/x", none⟩ =
      .response LocalResponse.not_found ∧
    strStartsWith (Uri.path_and_query ⟨some "http://example.com", "/x", none⟩) "/x" = true := by
  decide

/-- C4, amended.  `Rxh::call` evaluates the pattern list in declaration order
against the full stringified request URI (`Uri.render`, i.e.
`request.uri().to_string()`, which coincides with path-and-query exactly for
origin-form URIs): the first pattern whose URI is a string prefix wins and
its action is executed; when no pattern matches, the service responds
`404 Not Found` with an empty body. -/
theorem call_first_match_or_not_found (patterns : List Pattern) (u : Uri) :
    ((∀ p ∈ patterns, strStartsWith (Uri.render u) p.uri = false) →
      Rxh.call patterns u = .response LocalResponse.not_found ∧
      LocalResponse.not_found.status = 404 ∧ LocalResponse.not_found.body = []) ∧
    (∀ j (hj : j < patterns.length),
      strStartsWith (Uri.render u) (patterns.get ⟨j, hj⟩).uri = true →
      (∀ i (hi : i < patterns.length), i < j →
        strStartsWith (Uri.render u) (patterns.get ⟨i, hi⟩).uri = false) →
      Rxh.call patterns u = Rxh.applyAction (patterns.get ⟨j, hj⟩) u) := by
  constructor
  · intro hnone
    have hfind : patterns.find? (fun p => strStartsWith (Uri.render u) p.uri) = none := by
      rw [List.find?_eq_none]
      intro p hp
      simp [hnone p hp]
    rw [Rxh.call, hfind]
    exact ⟨rfl, rfl, rfl⟩
  · intro j hj hp hfirst
    have hfind := find?_first (fun p => strStartsWith (Uri.render u) p.uri) patterns j hj hp hfirst
    rw [Rxh.call, hfind]

/-- Witness for `call_first_match_or_not_found`: with patterns `/api` then `/`
and the origin-form URI `/hello`, the second pattern is the first match and
its `Serve` action is executed on the stripped path. -/
theorem call_first_match_or_not_found_witness :
    (strStartsWith (Uri.render ⟨none, "/hello", none⟩)
        (([⟨"/api", .Serve "/a"⟩, ⟨"/", .Serve "/srv"⟩] : List Pattern).get
          ⟨1, by decide⟩).uri = true) ∧
    Rxh.call [⟨"/api", .Serve "/a"⟩, ⟨"/", .Serve "/srv"⟩] ⟨none, "/hello", none⟩ =
      Rxh.applyAction (([⟨"/api", .Serve "/a"⟩, ⟨"/", .Serve "/srv"⟩] : List Pattern).get
        ⟨1, by decide⟩) ⟨none, "/hello", none⟩ :=
  ⟨by decide,
    (call_first_match_or_not_found [⟨"/api", .Serve "/a"⟩, ⟨"/", .Serve "/srv"⟩]
        ⟨none, "/hello", none⟩).2 1 (by decide) (by decide) (by decide)⟩

/-- Filesystem paths, modelled component-wise (Rust `std::path::PathBuf`):
`Path::starts_with` compares whole components and `PathBuf::join` with a
relative path appends components. -/
abbrev FsPath := List String

/-- Models `Path::starts_with`: `p` starts with `q` when `q` is a component
prefix of `p`. -/
def fsStartsWith (p q : FsPath) : Bool :=
  q.isPrefixOf p

/-- Abstraction of the filesystem operations used by `transfer`
(`src/service/files.rs`): `canonicalize` models `Path::canonicalize` (which
fails on missing paths and IO errors), `is_file` models `Path::is_file`, and
`read` models `tokio::fs::read` (which fails on unreadable files).  The
theorems below hold for every filesystem oracle. -/
structure FS where
  canonicalize : FsPath → Option FsPath
  is_file : FsPath → Bool
  read : FsPath → Option (List Nat)

/-- Splits a character list at every occurrence of `c` (helper for the
extension computation; Lean's byte-based `String.splitOn` does not reduce in
the kernel). -/
def splitOnChar (c : Char) : List Char → List (List Char)
  | [] => [[]]
  | x :: xs =>
    match splitOnChar c xs with
    | [] => if x = c then [[], [x]] else [[x]]
    | y :: ys => if x = c then [] :: y :: ys else (x :: y) :: ys

/-- Models `Path::extension()` on a file name: the part after the last `.`,
except that a name with no `.`, or whose whole stem is empty (hidden files
like `.bashrc`), has no extension. -/
def extensionOfName (name : List Char) : Option (List Char) :=
  let parts := splitOnChar '.' name
  if parts.length < 2 then none
  else if parts.dropLast = [[]] then none
  else some (parts.getLastD [])

/-- Models `file.extension().and_then(|e| e.to_str())` on a component path:
the extension of the last component (none for an empty path). -/
def fsExtension (p : FsPath) : Option String :=
  match p.getLast? with
  | none => none
  | some name => (extensionOfName name.data).map String.mk

/-- Embeds the MIME table of `transfer` (`src/service/files.rs` lines 26-33),
applied to `extension().….unwrap_or("txt")`. -/
def contentTypeFor (ext : String) : String :=
  if ext = "html" then "text/html"
  else if ext = "css" then "text/css"
  else if ext = "js" then "application/javascript"
  else if ext = "png" then "image/png"
  else if ext = "jpeg" then "image/jpeg"
  else "text/plain"

/-- Stand-in for `hyper::Error` values.  `transfer` never constructs one
(claim C9); `proxy::forward` can return one from the handshake or the send. -/
inductive HyperError where
  | err
deriving DecidableEq, Repr

/-- Embeds `transfer` (`src/service/files.rs` lines 13-45) over a filesystem
oracle: canonicalize the root, join and canonicalize the requested relative
path, reject non-descendants and non-files, read the bytes; every failure
returns `Ok(LocalResponse::not_found())`. -/
def transfer (fs : FS) (path : FsPath) (root : FsPath) : Except HyperError Response :=
  match fs.canonicalize root with
  | none => .ok LocalResponse.not_found
  | some directory =>
    match fs.canonicalize (directory ++ path) with
    | none => .ok LocalResponse.not_found
    | some file =>
      if !fsStartsWith file directory || !fs.is_file file then
        .ok LocalResponse.not_found
      else
        match fs.read file with
        | some content =>
          .ok { status := 200,
                content_type := some (contentTypeFor ((fsExtension file).getD "txt")),
                body := content }
        | none => .ok LocalResponse.not_found

/-- C2.  The Files action responds 404 whenever canonicalising the root
fails, canonicalising the joined path fails, the canonical result does not
have the canonical root as a path prefix, or it is not a regular file; and
whenever it returns anything other than the 404 response, the served file's
canonical path has the canonical root as a path prefix and is a regular
file. -/
theorem files_transfer_traversal_guard (fs : FS) (path root : FsPath) :
    (fs.canonicalize root = none →
      transfer fs path root = .ok LocalResponse.not_found) ∧
    (∀ d, fs.canonicalize root = some d → fs.canonicalize (d ++ path) = none →
      transfer fs path root = .ok LocalResponse.not_found) ∧
    (∀ d f, fs.canonicalize root = some d → fs.canonicalize (d ++ path) = some f →
      (fsStartsWith f d = false ∨ fs.is_file f = false) →
      transfer fs path root = .ok LocalResponse.not_found) ∧
    (∀ r, transfer fs path root = .ok r → r ≠ LocalResponse.not_found →
      ∃ d f, fs.canonicalize root = some d ∧ fs.canonicalize (d ++ path) = some f ∧
        fsStartsWith f d = true ∧ fs.is_file f = true ∧ fs.read f = some r.body ∧
        r.status = 200) := by
  refine ⟨?_, ?_, ?_, ?_⟩
  · intro h
    simp [transfer, h]
  · intro d hd hj
    simp [transfer, hd, hj]
  · intro d f hd hj hcond
    rcases hcond with h | h <;> simp [transfer, hd, hj, h]
  · intro r hr hne
    cases hroot : fs.canonicalize root with
    | none =>
      simp [transfer, hroot] at hr
      exact absurd hr.symm hne
    | some d =>
      cases hjoin : fs.canonicalize (d ++ path) with
      | none =>
        simp [transfer, hroot, hjoin] at hr
        exact absurd hr.symm hne
      | some f =>
        refine ⟨d, f, rfl, hjoin, ?_⟩
        simp only [transfer, hroot, hjoin] at hr
        by_cases hguard : (!fsStartsWith f d || !fs.is_file f) = true
        · rw [if_pos hguard] at hr
          simp at hr
          exact absurd hr.symm hne
        · rw [if_neg hguard] at hr
          have hg2 : (!fsStartsWith f d || !fs.is_file f) = false := by
            cases hq : (!fsStartsWith f d || !fs.is_file f)
            · rfl
            · exact absurd hq hguard
          simp only [Bool.or_eq_false_iff] at hg2
          obtain ⟨hsw2, hif2⟩ := hg2
          have hsw : fsStartsWith f d = true := by simpa using hsw2
          have hif : fs.is_file f = true := by simpa using hif2
          refine ⟨hsw, hif, ?_⟩
          cases hread : fs.read f with
          | none =>
            rw [hread] at hr
            simp at hr
            exact absurd hr.symm hne
          | some content =>
            rw [hread] at hr
            simp at hr
            rw [← hr]
            exact ⟨rfl, rfl⟩

/-- Witness filesystem for the Files-action claims: canonicalisation is the
identity, every path is a regular file holding the bytes "hi". -/
def idFS : FS :=
  { canonicalize := fun p => some p,
    is_file := fun _ => true,
    read := fun _ => some [104, 105] }

/-- The 200 response produced by `transfer` under `idFS` for `index.html`. -/
def okHtmlResponse : Response :=
  { status := 200, content_type := some "text/html", body := [104, 105] }

/-- Witness for `files_transfer_traversal_guard`: under `idFS`, requesting
`index.html` below root `srv` returns a 200 response, and the theorem yields
the canonical-prefix facts for it. -/
theorem files_transfer_traversal_guard_witness :
    (transfer idFS ["index.html"] ["srv"] = .ok okHtmlResponse ∧
      okHtmlResponse ≠ LocalResponse.not_found) ∧
    ∃ d f, idFS.canonicalize ["srv"] = some d ∧
      idFS.canonicalize (d ++ ["index.html"]) = some f ∧
      fsStartsWith f d = true ∧ idFS.is_file f = true ∧
      idFS.read f = some okHtmlResponse.body ∧ okHtmlResponse.status = 200 :=
  ⟨⟨rfl, by decide⟩,
    (files_transfer_traversal_guard idFS ["index.html"] ["srv"]).2.2.2 okHtmlResponse
      rfl (by decide)⟩

/-- C9.  `transfer` always returns `Ok`: the `hyper::Error` branch of its
result type is never produced, every filesystem failure becoming a response
(404), so serving a file never terminates the connection with an error. -/
theorem files_transfer_never_errors (fs : FS) (path root : FsPath) :
    ∃ r : Response, transfer fs path root = .ok r := by
  cases hroot : fs.canonicalize root with
  | none => exact ⟨LocalResponse.not_found, by simp [transfer, hroot]⟩
  | some d =>
    cases hjoin : fs.canonicalize (d ++ path) with
    | none => exact ⟨LocalResponse.not_found, by simp [transfer, hroot, hjoin]⟩
    | some f =>
      by_cases hguard : (!fsStartsWith f d || !fs.is_file f) = true
      · exact ⟨LocalResponse.not_found, by simp only [transfer, hroot, hjoin, if_pos hguard]⟩
      · cases hread : fs.read f with
        | none =>
          exact ⟨LocalResponse.not_found,
            by simp only [transfer, hroot, hjoin, if_neg hguard, hread]⟩
        | some content =>
          exact ⟨{ status := 200,
                   content_type := some (contentTypeFor ((fsExtension f).getD "txt")),
                   body := content },
            by simp only [transfer, hroot, hjoin, if_neg hguard, hread]⟩

/-- Value of an HTTP header (`hyper::header::HeaderValue`).  `text s` holds a
value whose bytes are valid UTF-8, so `to_str()` returns `Ok(s)`; `bytes`
holds a value with non-UTF-8 bytes, for which `to_str()` returns `Err`
(header values may contain arbitrary opaque bytes in the 0x80-0xFF range). -/
inductive HeaderValue where
  | text (s : String)
  | bytes (bs : List Nat)
deriving DecidableEq, Repr

/-- Models `HeaderValue::to_str`. -/
def HeaderValue.to_str : HeaderValue → Option String
  | .text s => some s
  | .bytes _ => none

/-- Header maps (`http::HeaderMap`) are modelled as ordered lists of
(lowercased name, value) entries. -/
abbrev Headers := List (String × HeaderValue)

/-- Models `HeaderMap::get`: first value stored under the name. -/
def headerGet (hs : Headers) (name : String) : Option HeaderValue :=
  (hs.find? fun q => q.1 == name).map fun q => q.2

/-- Models `HeaderMap::insert`: every entry with the given name is replaced
by the single new value. -/
def headerInsert (hs : Headers) (name : String) (v : HeaderValue) : Headers :=
  (hs.filter fun q => !(q.1 == name)) ++ [(name, v)]

/-- Models `HeaderMap::contains_key`. -/
def headerContains (hs : Headers) (name : String) : Bool :=
  hs.any fun q => q.1 == name

/-- All values stored under a name, in order (`HeaderMap::get_all`). -/
def headersGetAll (hs : Headers) (name : String) : List HeaderValue :=
  (hs.filter fun q => q.1 == name).map fun q => q.2

/-- Embeds `hyper::Request<T>` with the parts the claims observe: method,
URI, version, headers, extensions (the `OnUpgrade` capability is modelled as
the presence of the string "OnUpgrade") and body. -/
structure Request (T : Type) where
  method : String
  uri : Uri
  version : String
  headers : Headers
  extensions : List String
  body : T
deriving DecidableEq, Repr

/-- Embeds `struct ProxyRequest<T>` (`src/http/request.rs` lines 14-23). -/
structure ProxyRequest (T : Type) where
  request : Request T
  client_addr : SocketAddr
  server_addr : SocketAddr
deriving DecidableEq, Repr

/-- Embeds `ProxyRequest::into_forwarded` (`src/http/request.rs` lines
109-137): compute `host` from the `Host` header (falling back to the server
address when absent or not valid UTF-8), build the group
`for={client};by={server};host={host}`, prepend the previous `Forwarded`
value and a comma when that value exists and is valid UTF-8, and `insert` the
result, replacing whatever was stored under `Forwarded`. -/
def ProxyRequest.into_forwarded (p : ProxyRequest T) : Request T :=
  let host :=
    match headerGet p.request.headers "host" with
    | some value =>
      match value.to_str with
      | some host => host
      | none => p.server_addr
    | none => p.server_addr
  let forwarded :=
    "for=" ++ p.client_addr ++ ";by=" ++ p.server_addr ++ ";host=" ++ host
  let forwarded :=
    match headerGet p.request.headers "forwarded" with
    | some value =>
      match value.to_str with
      | some previous_proxies => previous_proxies ++ ", " ++ forwarded
      | none => forwarded
    | none => forwarded
  { p.request with
    headers := headerInsert p.request.headers "forwarded" (.text forwarded) }

theorem headerGet_insert (hs : Headers) (name : String) (v : HeaderValue) :
    headerGet (headerInsert hs name v) name = some v := by
  unfold headerGet headerInsert
  have hleft : (hs.filter fun q => !(q.1 == name)).find? (fun q => q.1 == name) = none := by
    rw [List.find?_eq_none]
    intro a ha
    have := List.of_mem_filter ha
    simpa using this
  rw [List.find?_append, hleft]
  simp

theorem headerInsert_filter_other (hs : Headers) (name fwd : String)
    (hne : name ≠ fwd) (v : HeaderValue) :
    (headerInsert hs fwd v).filter (fun q => q.1 == name) =
      hs.filter (fun q => q.1 == name) := by
  unfold headerInsert
  rw [List.filter_append]
  have h2 : [(fwd, v)].filter (fun q => q.1 == name) = [] := by
    simp [Ne.symm hne]
  rw [h2, List.append_nil]
  induction hs with
  | nil => rfl
  | cons a hs ih =>
    by_cases ha : a.1 = fwd
    · have h4 : ¬(!(a.1 == fwd)) = true := by simp [ha]
      have h5 : ¬(a.1 == name) = true := by simp [ha, Ne.symm hne]
      rw [@List.filter_cons_of_neg _ (fun q => !(q.1 == fwd)) a hs h4,
        @List.filter_cons_of_neg _ (fun q => q.1 == name) a hs h5, ih]
    · have h4 : (!(a.1 == fwd)) = true := by simp [ha]
      rw [@List.filter_cons_of_pos _ (fun q => !(q.1 == fwd)) a hs h4]
      by_cases hb : a.1 = name
      · have h5 : (a.1 == name) = true := by simp [hb]
        rw [@List.filter_cons_of_pos _ (fun q => q.1 == name) a
            ((hs.filter fun q => !(q.1 == fwd))) h5,
          @List.filter_cons_of_pos _ (fun q => q.1 == name) a hs h5, ih]
      · have h5 : ¬(a.1 == name) = true := by simp [hb]
        rw [@List.filter_cons_of_neg _ (fun q => q.1 == name) a
            ((hs.filter fun q => !(q.1 == fwd))) h5,
          @List.filter_cons_of_neg _ (fun q => q.1 == name) a hs h5, ih]

/-- C3, counterexample.  When the incoming request carries a `Forwarded`
header whose value is not valid UTF-8, `into_forwarded` does not preserve it:
`HeaderMap::insert` replaces it with the freshly built group alone. -/
def nonUtf8FwdRequest : ProxyRequest Unit :=
  { request := { method := "GET", uri := ⟨none, "/", none⟩, version := "HTTP/1.1",
                 headers := [("forwarded", .bytes [255])], extensions := [], body := () },
    client_addr := "127.0.0.1:8000",
    server_addr := "127.0.0.1:9000" }

/-- C3, counterexample theorem: the incoming request carries
`Forwarded: <non-UTF-8 bytes>`, and after `into_forwarded` the header holds
only the new group — the existing value was not preserved. -/
theorem into_forwarded_replaces_non_utf8_cex :
    headerGet nonUtf8FwdRequest.request.headers "forwarded" =
      some (.bytes [255]) ∧
    nonUtf8FwdRequest.into_forwarded.headers =
      [("forwarded", .text "for=127.0.0.1:8000;by=127.0.0.1:9000;host=127.0.0.1:9000")] := by
  constructor
  · rfl
  · rfl

/-- C3, amended.  `into_forwarded` sets the `Forwarded` header to
`for={client};by={server};host={host}`, where `host` is the incoming `Host`
header when present and valid UTF-8 and the listening address otherwise; when
the incoming request already carries a `Forwarded` header *whose value is
valid UTF-8*, that value is preserved and the new group is appended after a
comma (a non-UTF-8 `Forwarded` value is replaced, see
`into_forwarded_replaces_non_utf8_cex`). -/
theorem into_forwarded_sets_forwarded_header (p : ProxyRequest T) (host : String)
    (hhost : (headerGet p.request.headers "host").bind HeaderValue.to_str = some host
      ∨ ((headerGet p.request.headers "host").bind HeaderValue.to_str = none ∧
         host = p.server_addr)) :
    (headerGet p.request.headers "forwarded" = none →
      headerGet p.into_forwarded.headers "forwarded" =
        some (.text ("for=" ++ p.client_addr ++ ";by=" ++ p.server_addr ++
          ";host=" ++ host))) ∧
    (∀ prev, headerGet p.request.headers "forwarded" = some (.text prev) →
      headerGet p.into_forwarded.headers "forwarded" =
        some (.text (prev ++ ", " ++ ("for=" ++ p.client_addr ++ ";by=" ++
          p.server_addr ++ ";host=" ++ host)))) := by
  have hhost2 : (match headerGet p.request.headers "host" with
      | some value =>
        match value.to_str with
        | some h => h
        | none => p.server_addr
      | none => p.server_addr) = host := by
    rcases hhost with hsome | ⟨hnone, hh⟩
    · cases hv : headerGet p.request.headers "host" with
      | none => rw [hv] at hsome; simp at hsome
      | some v =>
        rw [hv] at hsome
        cases v with
        | text s =>
          simp [HeaderValue.to_str] at hsome
          simp [HeaderValue.to_str, hsome]
        | bytes bs => simp [HeaderValue.to_str] at hsome
    · cases hv : headerGet p.request.headers "host" with
      | none => simp [hh]
      | some v =>
        rw [hv] at hnone
        cases v with
        | text s => simp [HeaderValue.to_str] at hnone
        | bytes bs => simp [HeaderValue.to_str, hh]
  constructor
  · intro hfwd
    unfold ProxyRequest.into_forwarded
    simp only [hfwd, hhost2]
    exact headerGet_insert _ _ _
  · intro prev hfwd
    unfold ProxyRequest.into_forwarded
    simp only [hfwd, hhost2]
    simp only [HeaderValue.to_str]
    exact headerGet_insert _ _ _

/-- Concrete request for the C3 witness: `Host: example.com` and an existing
`Forwarded` group from an earlier proxy. -/
def chainedRequest : ProxyRequest Unit :=
  { request := { method := "GET", uri := ⟨none, "/", none⟩, version := "HTTP/1.1",
                 headers := [("host", .text "example.com"),
                             ("forwarded", .text "for=10.0.0.1")],
                 extensions := [], body := () },
    client_addr := "192.0.2.43:5000",
    server_addr := "198.51.100.17:80" }

/-- Witness for `into_forwarded_sets_forwarded_header`: the UTF-8 `Forwarded`
value of `chainedRequest` is preserved and comma-extended with the new group,
whose host field is the incoming `Host` header. -/
theorem into_forwarded_sets_forwarded_header_witness :
    ((headerGet chainedRequest.request.headers "host").bind HeaderValue.to_str =
        some "example.com" ∧
      headerGet chainedRequest.request.headers "forwarded" =
        some (.text "for=10.0.0.1")) ∧
    headerGet chainedRequest.into_forwarded.headers "forwarded" =
      some (.text ("for=10.0.0.1" ++ ", " ++ ("for=" ++ "192.0.2.43:5000" ++ ";by=" ++
        "198.51.100.17:80" ++ ";host=" ++ "example.com"))) :=
  ⟨⟨rfl, rfl⟩,
    (into_forwarded_sets_forwarded_header chainedRequest "example.com"
        (Or.inl rfl)).2 "for=10.0.0.1" rfl⟩

/-- C10.  `into_forwarded` modifies only the `Forwarded` header: the method,
URI, version, extensions, body and every header entry stored under any other
name are identical to those of the input request. -/
theorem into_forwarded_frame (p : ProxyRequest T) :
    p.into_forwarded.method = p.request.method ∧
    p.into_forwarded.uri = p.request.uri ∧
    p.into_forwarded.version = p.request.version ∧
    p.into_forwarded.extensions = p.request.extensions ∧
    p.into_forwarded.body = p.request.body ∧
    ∀ name, name ≠ "forwarded" →
      headersGetAll p.into_forwarded.headers name =
        headersGetAll p.request.headers name := by
  refine ⟨rfl, rfl, rfl, rfl, rfl, ?_⟩
  intro name hne
  unfold ProxyRequest.into_forwarded headersGetAll
  simp only []
  rw [headerInsert_filter_other p.request.headers name "forwarded" hne]

/-- Witness for `into_forwarded_frame` at a request with a `Host` header, an
`Upgrade` header and an `OnUpgrade` extension: everything except `Forwarded`
is unchanged. -/
def framedRequest : ProxyRequest Nat :=
  { request := { method := "POST", uri := ⟨none, "/ws", none⟩, version := "HTTP/1.1",
                 headers := [("host", .text "example.com"), ("upgrade", .text "websocket")],
                 extensions := ["OnUpgrade"], body := 7 },
    client_addr := "127.0.0.1:6000",
    server_addr := "127.0.0.1:7000" }

theorem into_forwarded_frame_witness :
    ("host" : String) ≠ "forwarded" ∧
    headersGetAll framedRequest.into_forwarded.headers "host" =
      headersGetAll framedRequest.request.headers "host" :=
  ⟨by decide, (into_forwarded_frame framedRequest).2.2.2.2.2 "host" (by decide)⟩

/-- Abstraction of the upstream server behavior observed by one
`proxy::forward` call (`src/service/proxy.rs`): whether the TCP dial
succeeds, whether the HTTP/1.1 handshake errors, whether sending the request
errors, the status of the upstream response, and whether that response
carries an `OnUpgrade` extension. -/
structure Upstream where
  connect_ok : Bool
  handshake_err : Bool
  send_err : Bool
  response_status : Nat
  response_has_upgrade : Bool
deriving DecidableEq, Repr

/-- Result of `proxy::forward`: a locally generated response
(`LocalResponse::bad_gateway()`) or the upstream response, with a flag
recording whether a tunnel task was spawned. -/
inductive ForwardResult where
  | localResponse (r : Response)
  | upstream (status : Nat) (tunnel_spawned : Bool)
deriving DecidableEq, Repr

/-- Embeds `proxy::forward` (`src/service/proxy.rs` lines 17-58) over an
upstream abstraction.  `none` models the two `unwrap()` panics on missing
`OnUpgrade` extensions; `Except.error` models the `?` operators on the
handshake and on `send_request`; dial failure returns
`Ok(LocalResponse::bad_gateway())`; a `101 Switching Protocols` upstream
response is forwarded with a spawned tunnel when the client requested an
upgrade, and turned into `502 Bad Gateway` when it did not. -/
def Service.forward (request : ProxyRequest Unit) (up : Upstream) :
    Option (Except HyperError ForwardResult) :=
  if !up.connect_ok then
    some (.ok (.localResponse LocalResponse.bad_gateway))
  else if up.handshake_err then
    some (.error .err)
  else
    let has_upgrade := headerContains request.request.headers "upgrade"
    if has_upgrade && !(request.request.extensions.contains "OnUpgrade") then
      none
    else if up.send_err then
      some (.error .err)
    else if up.response_status = 101 then
      if has_upgrade then
        if up.response_has_upgrade then
          some (.ok (.upstream up.response_status true))
        else
          none
      else
        some (.ok (.localResponse LocalResponse.bad_gateway))
    else
      some (.ok (.upstream up.response_status false))

/-- C7.  When the upstream response has status `101 Switching Protocols` but
the incoming request carried no `Upgrade` header (so no client upgrade handle
was detached), the proxy returns `502 Bad Gateway` instead of the 101
response. -/
theorem forward_101_without_upgrade_is_bad_gateway (request : ProxyRequest Unit)
    (up : Upstream)
    (hnoupg : headerContains request.request.headers "upgrade" = false)
    (hconn : up.connect_ok = true) (hhs : up.handshake_err = false)
    (hsend : up.send_err = false) (h101 : up.response_status = 101) :
    Service.forward request up =
      some (.ok (.localResponse LocalResponse.bad_gateway)) ∧
    LocalResponse.bad_gateway.status = 502 := by
  constructor
  · unfold Service.forward
    simp [hnoupg, hconn, hhs, hsend, h101]
  · rfl

/-- Request without an `Upgrade` header, for the C7 witness. -/
def plainRequest : ProxyRequest Unit :=
  { request := { method := "GET", uri := ⟨none, "/", none⟩, version := "HTTP/1.1",
                 headers := [("host", .text "example.com")], extensions := [], body := () },
    client_addr := "127.0.0.1:4000",
    server_addr := "127.0.0.1:5000" }

/-- Upstream that answers 101 with an upgrade extension, for the C7 witness. -/
def upgrading101Upstream : Upstream :=
  { connect_ok := true, handshake_err := false, send_err := false,
    response_status := 101, response_has_upgrade := true }

/-- Witness for `forward_101_without_upgrade_is_bad_gateway`: a plain GET
meeting an upstream 101 yields the local 502 response. -/
theorem forward_101_without_upgrade_is_bad_gateway_witness :
    (headerContains plainRequest.request.headers "upgrade" = false ∧
      upgrading101Upstream.connect_ok = true ∧
      upgrading101Upstream.handshake_err = false ∧
      upgrading101Upstream.send_err = false ∧
      upgrading101Upstream.response_status = 101) ∧
    (Service.forward plainRequest upgrading101Upstream =
        some (.ok (.localResponse LocalResponse.bad_gateway)) ∧
      LocalResponse.bad_gateway.status = 502) :=
  ⟨⟨by decide, rfl, rfl, rfl, rfl⟩,
    forward_101_without_upgrade_is_bad_gateway plainRequest upgrading101Upstream
      (by decide) rfl rfl rfl rfl⟩

/-- Lifetime behavior of one `Subscription` (`src/sync/notify.rs`) during a
drain: whether it calls `acknowledge_notification`, and whether it is
eventually dropped.  In the server, handler tasks acknowledge after their
request completes and are then dropped when the task ends
(`src/task/server.rs` lines 309-327). -/
inductive SubBehavior where
  | ackThenDrop
  | ackOnly
  | dropOnly
  | silent
deriving DecidableEq, Repr

/-- Whether the subscription sends an acknowledgement. -/
def SubBehavior.acked : SubBehavior → Bool
  | .ackThenDrop => true
  | .ackOnly => true
  | _ => false

/-- Whether the subscription is eventually dropped. -/
def SubBehavior.dropped : SubBehavior → Bool
  | .ackThenDrop => true
  | .dropOnly => true
  | _ => false

/-- Whether the subscription's clone of the mpsc acknowledgement sender stays
alive: `Subscription::acknowledge_notification` sends on the channel but
keeps the sender (`src/sync/notify.rs` lines 142-144); only dropping the
`Subscription` releases it. -/
def SubBehavior.holdsSender (b : SubBehavior) : Bool :=
  !b.dropped

/-- Embeds `Notifier::send` (`src/sync/notify.rs` lines 71-76) combined with
tokio broadcast semantics: `broadcast::Sender::send` returns
`Ok(receiver_count)` — the number of subscriptions alive at the moment of
send — and `Err` when there are no live subscribers. -/
def Notifier.send (subscribers : List SubBehavior) : Option Nat :=
  if subscribers.length = 0 then none else some subscribers.length

/-- Embeds the termination condition of `Notifier::collect_acknowledgements`
(`src/sync/notify.rs` lines 80-102): the function drops the notifier's own
ack sender and then loops on `recv`; per the comments in the source, "the
channel is closed only when all senders are dropped, which causes `recv` to
return None".  The loop therefore completes exactly when no subscription
still holds its cloned sender. -/
def collectAcknowledgementsCompletes (subscribers : List SubBehavior) : Bool :=
  subscribers.all fun b => !b.holdsSender

/-- C5, counterexample.  One subscription that acknowledges but is never
dropped: `send` returned `k = 1` and every subscription has acknowledged or
been dropped, yet `collect_acknowledgements` does not complete, because the
acknowledging subscription still holds its clone of the ack sender and the
mpsc channel never closes. -/
theorem collect_ack_without_drop_cex :
    Notifier.send [SubBehavior.ackOnly] = some 1 ∧
    (∀ b ∈ [SubBehavior.ackOnly], b.acked = true ∨ b.dropped = true) ∧
    collectAcknowledgementsCompletes [SubBehavior.ackOnly] = false := by
  refine ⟨rfl, ?_, rfl⟩
  intro b hb
  simp at hb
  subst hb
  exact Or.inl rfl

/-- C5, amended.  `collect_acknowledgements` completes exactly when each of
the `k` subscriptions outstanding at the moment of send has been *dropped*
(in the server each subscription that acknowledges is dropped right after,
when its handler task ends); acknowledgements alone do not close the ack
channel.  `send` reports `k` = the number of live subscribers at the moment
of send. -/
theorem collect_completes_iff_all_dropped (subscribers : List SubBehavior) :
    (collectAcknowledgementsCompletes subscribers = true ↔
      ∀ b ∈ subscribers, b.dropped = true) ∧
    (subscribers ≠ [] → Notifier.send subscribers = some subscribers.length) := by
  constructor
  · unfold collectAcknowledgementsCompletes SubBehavior.holdsSender
    rw [List.all_eq_true]
    constructor
    · intro h b hb
      have := h b hb
      simpa using this
    · intro h b hb
      simp [h b hb]
  · intro h
    unfold Notifier.send
    rw [if_neg]
    simpa using h

/-- Witness for `collect_completes_iff_all_dropped` at two subscriptions that
acknowledge and are then dropped. -/
theorem collect_completes_iff_all_dropped_witness :
    ([SubBehavior.ackThenDrop, SubBehavior.ackThenDrop] ≠ [] ∧
      collectAcknowledgementsCompletes [SubBehavior.ackThenDrop, SubBehavior.ackThenDrop]
        = true) ∧
    Notifier.send [SubBehavior.ackThenDrop, SubBehavior.ackThenDrop] =
      some ([SubBehavior.ackThenDrop, SubBehavior.ackThenDrop] : List SubBehavior).length :=
  ⟨⟨by decide, by decide⟩,
    (collect_completes_iff_all_dropped [SubBehavior.ackThenDrop, SubBehavior.ackThenDrop]).2
      (by decide)⟩

/-- Embeds `enum ShutdownState` (`src/task/server.rs` lines 92-100). -/
inductive ShutdownState where
  | PendingConnections (n : Nat)
  | Done
deriving DecidableEq, Repr

/-- Embeds `enum State` (`src/task/server.rs` lines 76-88). -/
inductive State where
  | Starting
  | Listening
  | MaxConnectionsReached (n : Nat)
  | ShuttingDown (s : ShutdownState)
deriving DecidableEq, Repr

/-- States published by the accept loop `Listener::listen`
(`src/task/server.rs` lines 277-329), one entry of `iterations` per completed
permit acquisition: when no permit is immediately available the loop
publishes `MaxConnectionsReached(max_connections)` and, once a permit is
acquired, `Listening` again; otherwise it publishes nothing. -/
def listenEmitted (maxConn : Nat) (iterations : List Bool) : List State :=
  iterations.flatMap fun avail =>
    if avail then [] else [State.MaxConnectionsReached maxConn, State.Listening]

/-- Full sequence of values published on the server's watch channel,
embedding `Server::init` (line 111: initial value `Starting`) and
`Server::run` (`src/task/server.rs` lines 178-251), parameterized by an
abstract schedule: `iterations` records the permit availability of each
completed accept-loop iteration; `interruptedAtMax` is true when the shutdown
arm of the `select` wins while the loop is awaiting a permit, after
`MaxConnectionsReached` was published but before `Listening` was published
again; `subsAlive` is the number of live subscriptions when
`notifier.send(Shutdown)` runs — broadcast `send` returns `Err` when it is 0
(no live receivers), in which case lines 231-235 are skipped and no
`PendingConnections` state is published. -/
def serverStates (maxConn : Nat) (iterations : List Bool) (interruptedAtMax : Bool)
    (subsAlive : Nat) : List State :=
  State.Starting :: State.Listening ::
    (listenEmitted maxConn iterations ++
      (if interruptedAtMax then [State.MaxConnectionsReached maxConn] else []) ++
      (if 0 < subsAlive then [State.ShuttingDown (.PendingConnections subsAlive)] else []) ++
      [State.ShuttingDown .Done])

/-- Recognizer of the shutdown suffix of a published trace:
`PendingConnections(subs)` (only when `subs > 0`) followed by `Done`, or
`Done` alone when `subs = 0`. -/
def shutdownTail (subs : Nat) : List State → Bool
  | [State.ShuttingDown (.PendingConnections k), State.ShuttingDown .Done] =>
    k == subs && decide (0 < subs)
  | [State.ShuttingDown .Done] => subs == 0
  | _ => false

/-- Recognizer of the oscillation phase after the initial `Listening`: any
number of `MaxConnectionsReached(maxConn), Listening` pairs, optionally a
final unmatched `MaxConnectionsReached(maxConn)`, then the shutdown
suffix. -/
def oscillation (maxConn subs : Nat) : List State → Bool
  | State.MaxConnectionsReached m :: State.Listening :: rest =>
    m == maxConn && oscillation maxConn subs rest
  | State.MaxConnectionsReached m :: rest => m == maxConn && shutdownTail subs rest
  | t => shutdownTail subs t

/-- Recognizer of the amended state machine: `Starting`, `Listening`, the
`Listening ⇄ MaxConnectionsReached` oscillation, then
`ShuttingDown(PendingConnections(subs))` exactly when `subs > 0`, then the
terminal `ShuttingDown(Done)`. -/
def validTrace (maxConn subs : Nat) : List State → Bool
  | State.Starting :: State.Listening :: rest => oscillation maxConn subs rest
  | _ => false

theorem oscillation_shutdown (maxConn subs : Nat) (interruptedAtMax : Bool) :
    oscillation maxConn subs
      ((if interruptedAtMax then [State.MaxConnectionsReached maxConn] else []) ++
        ((if 0 < subs then [State.ShuttingDown (.PendingConnections subs)] else []) ++
          [State.ShuttingDown .Done])) = true := by
  cases interruptedAtMax with
  | false =>
    by_cases hs : 0 < subs
    · rw [if_neg (by simp), if_pos hs, List.nil_append]
      show (subs == subs && decide (0 < subs)) = true
      simp [hs]
    · have h0 : subs = 0 := by omega
      subst h0
      rw [if_neg (by simp), if_neg (by omega), List.nil_append, List.nil_append]
      rfl
  | true =>
    by_cases hs : 0 < subs
    · rw [if_pos rfl, if_pos hs]
      show (maxConn == maxConn && shutdownTail subs
        ([State.ShuttingDown (.PendingConnections subs)] ++ [State.ShuttingDown .Done])) = true
      show (maxConn == maxConn && (subs == subs && decide (0 < subs))) = true
      simp [hs]
    · have h0 : subs = 0 := by omega
      subst h0
      rw [if_pos rfl, if_neg (by omega), List.nil_append]
      show (maxConn == maxConn && shutdownTail 0 [State.ShuttingDown .Done]) = true
      simp [shutdownTail]

theorem oscillation_listenEmitted (maxConn subs : Nat) (iterations : List Bool)
    (tail : List State) (htail : oscillation maxConn subs tail = true) :
    oscillation maxConn subs (listenEmitted maxConn iterations ++ tail) = true := by
  induction iterations with
  | nil =>
    simpa [listenEmitted] using htail
  | cons avail rest ih =>
    cases avail with
    | true =>
      simpa [listenEmitted, List.flatMap_cons] using ih
    | false =>
      have hexp : listenEmitted maxConn (false :: rest) ++ tail =
          State.MaxConnectionsReached maxConn :: State.Listening ::
            (listenEmitted maxConn rest ++ tail) := by
        simp [listenEmitted, List.flatMap_cons]
      rw [hexp]
      show (maxConn == maxConn &&
        oscillation maxConn subs (listenEmitted maxConn rest ++ tail)) = true
      simp [ih]

/-- C6, counterexample.  When no subscription is alive at the moment of
shutdown (no connection in flight), `notifier.send(Shutdown)` returns `Err`
and the server transitions directly from `Listening` to `ShuttingDown(Done)`:
no `ShuttingDown(PendingConnections(k))` state is ever published, so the
claim that `PendingConnections` is entered before `Done` during shutdown
fails. -/
theorem server_skips_pending_cex :
    serverStates 1024 [] false 0 =
      [State.Starting, State.Listening, State.ShuttingDown .Done] ∧
    ∀ k, State.ShuttingDown (.PendingConnections k) ∉ serverStates 1024 [] false 0 := by
  constructor
  · rfl
  · intro k hk
    rw [show serverStates 1024 [] false 0 =
      [State.Starting, State.Listening, State.ShuttingDown .Done] from rfl] at hk
    simp at hk

/-- C6, amended.  Every sequence of values published on the server's state
channel follows `Starting → Listening → (⇄ MaxConnectionsReached) →
ShuttingDown(PendingConnections(k)) → ShuttingDown(Done)`, where the
`PendingConnections(k)` state is published exactly when `k > 0` subscriptions
are outstanding at shutdown (with zero outstanding connections the server
goes directly to `Done`), and `ShuttingDown(Done)` is terminal: it is the
last published value. -/
theorem server_trace_valid (maxConn : Nat) (iterations : List Bool)
    (interruptedAtMax : Bool) (subsAlive : Nat) :
    validTrace maxConn subsAlive
        (serverStates maxConn iterations interruptedAtMax subsAlive) = true ∧
    (serverStates maxConn iterations interruptedAtMax subsAlive).getLast? =
      some (State.ShuttingDown .Done) := by
  constructor
  · show oscillation maxConn subsAlive
      (listenEmitted maxConn iterations ++
        (if interruptedAtMax then [State.MaxConnectionsReached maxConn] else []) ++
        (if 0 < subsAlive then
          [State.ShuttingDown (.PendingConnections subsAlive)] else []) ++
        [State.ShuttingDown .Done]) = true
    rw [List.append_assoc, List.append_assoc]
    exact oscillation_listenEmitted maxConn subsAlive iterations _
      (oscillation_shutdown maxConn subsAlive interruptedAtMax)
  · have hconc : serverStates maxConn iterations interruptedAtMax subsAlive =
        (State.Starting :: State.Listening ::
          (listenEmitted maxConn iterations ++
            (if interruptedAtMax then [State.MaxConnectionsReached maxConn] else []) ++
            (if 0 < subsAlive then
              [State.ShuttingDown (.PendingConnections subsAlive)] else []))) ++
          [State.ShuttingDown .Done] := by
      simp [serverStates, List.cons_append, List.append_assoc]
    rw [hconc, List.getLast?_concat]

end Rxh
